import Mathlib

/-!
# Verification of the test-user pool lease coordinator

Shallow embedding of the lease coordinator of this repository:
`src/pools/pool_service.py` (`UserPoolService`), `src/users/user_repository.py`
(`UserRepository`), `src/executions/execution_repository.py`
(`TestExecutionRepository`), and the models in `src/users/user_models.py` and
`src/executions/execution_models.py`.

Modelling conventions:
* Timestamps (`NOW()` / `datetime.utcnow()`) are `Nat` values passed in
  explicitly; the audit columns `created_at` / `updated_at` of `certa_users`
  are never read by the coordinator and are omitted.
* A SQLAlchemy session's transaction is modelled by explicit state passing:
  commit keeps the new state, rollback returns the state from the start of
  the transaction.
* The SQL `ORDER BY locked_at NULLS FIRST` is modelled with a stable merge
  sort on the `locked_at` key (nulls first); SQL leaves the order of ties
  unspecified, the model picks the stable one.
* A transient store error ("Transient store errors during an attempt",
  spec section 4.3) is modelled by a boolean `store_fails` input to an
  acquisition attempt, and a schedule `transient : Nat → Bool` (per attempt
  index) for the retry loop; the Python code has no such parameter because
  the error is raised by the database driver.
* Python exception objects are modelled by `ExcData`: `message` is the
  string given to `Exception.__init__`, and `role` / `required` /
  `available` are the optional extra attributes that
  `InsufficientUsersException.__init__` sets (they default to `None`, and
  the other exception classes of the repository never set them).
-/

namespace UserPool

/-- `TestExecutionStatus` from `src/executions/execution_models.py`. -/
inductive TestExecutionStatus where
  | acquiring
  | running
  | completed
  | failed
deriving DecidableEq, Repr

/-- A row of the `certa_users` table (`CertaUser` in
`src/users/user_models.py`).  The audit columns `created_at` / `updated_at`
are omitted (never read or written by the lease coordinator). -/
structure CertaUser where
  id : Nat
  email : String
  password : String
  role : String
  tenant : Option String
  domain : Option String
  tags : Option String
  is_locked : Bool
  is_healthy : Bool
  locked_by : Option String
  locked_at : Option Nat
deriving DecidableEq, Repr

/-- A row of the `certa_test_executions` table (`TestExecution` in
`src/executions/execution_models.py`). -/
structure TestExecution where
  id : String
  requested_roles : List (String × Nat)
  status : TestExecutionStatus
  created_at : Option Nat
  acquired_at : Option Nat
  completed_at : Option Nat
deriving DecidableEq, Repr

/-- The two durable collections the coordinator works against. -/
structure DBState where
  users : List CertaUser
  executions : List TestExecution
deriving DecidableEq, Repr

/-- Data carried by a Python exception of this repository: the message passed
to `Exception.__init__`, plus the optional `role` / `required` / `available`
attributes that only `InsufficientUsersException.__init__`
(`src/users/user_exceptions.py`) fills in. -/
structure ExcData where
  message : String
  role : Option String := none
  required : Option Nat := none
  available : Option Nat := none
deriving DecidableEq, Repr

/-- The exceptions that can cross the boundaries of the embedded operations:
`InsufficientUsersException` and `UserAcquisitionTimeoutException` from the
repository's exception modules, the store's primary-key `IntegrityError`
raised by `session.flush()` on a duplicate execution id, and a transient
store error raised by the database driver. -/
inductive PyError where
  | insufficientUsers (data : ExcData)
  | acquisitionTimeout (data : ExcData)
  | integrityError (message : String)
  | storeError (message : String)
deriving DecidableEq, Repr

/-- The pool-relevant fields of `Settings` (`core/settings.py`) with their
declared defaults. -/
structure Settings where
  default_max_retries : Nat := 10
  max_retry_wait_seconds : Nat := 10
  min_backoff_seconds : ℚ := 1 / 2
  max_backoff_seconds : ℚ := 2
deriving DecidableEq, Repr

/-- `get_settings()` with every field at its declared default. -/
def get_settings : Settings := {}

/-- Comparator for `ORDER BY locked_at NULLS FIRST`. -/
def locked_at_le (u v : CertaUser) : Bool :=
  match u.locked_at, v.locked_at with
  | none, _ => true
  | some _, none => false
  | some a, some b => decide (a ≤ b)

/-- The `WHERE role = :role AND is_locked = false AND is_healthy = true`
filter of `acquire_users_atomic` (`src/users/user_repository.py`). -/
def available_for_role (role : String) (u : CertaUser) : Bool :=
  u.role == role && !u.is_locked && u.is_healthy

/-- Effect of the `UPDATE certa_users SET is_locked = true, locked_by =
:test_id, locked_at = NOW()` statement on one selected row. -/
def lock_user (test_execution_id : String) (now : Nat) (u : CertaUser) : CertaUser :=
  { u with is_locked := true, locked_by := some test_execution_id, locked_at := some now }

/-- Insert a row into an already ordered list, before the first row it
compares (weakly) at-or-below — one step of a stable insertion sort. -/
def sort_insert (le : CertaUser → CertaUser → Bool) (u : CertaUser) :
    List CertaUser → List CertaUser
  | [] => [u]
  | v :: l => if le u v then u :: v :: l else v :: sort_insert le u l

/-- Stable insertion sort; models the SQL `ORDER BY` (which leaves the
relative order of ties unspecified — the model fixes the stable order). -/
def sort_by (le : CertaUser → CertaUser → Bool) : List CertaUser → List CertaUser
  | [] => []
  | u :: l => sort_insert le u (sort_by le l)

/-- The inner `SELECT id FROM certa_users WHERE role = :role AND is_locked =
false AND is_healthy = true ORDER BY locked_at NULLS FIRST LIMIT :count`
subquery of `acquire_users_atomic` (the `claim_candidates` store primitive
of spec section 4.1). -/
def claim_candidates (role : String) (count : Nat) (s : DBState) : List CertaUser :=
  (sort_by locked_at_le (s.users.filter (available_for_role role))).take count

/-- Effect of the `UPDATE certa_users SET ... WHERE id IN (:user_ids)` part
of `acquire_users_atomic` on the table. -/
def locked_update (user_ids : List Nat) (test_execution_id : String) (now : Nat)
    (users : List CertaUser) : List CertaUser :=
  users.map (fun u => if user_ids.contains u.id then lock_user test_execution_id now u else u)

/-- `UserRepository.acquire_users_atomic` (`src/users/user_repository.py`):
select up to `count` available users of `role` ordered by `locked_at` nulls
first, lock them for `test_execution_id`, and return the (post-update) rows
with the selected ids together with the new state.  The `FOR UPDATE SKIP
LOCKED` row locks live inside a single transaction, so at this granularity
the whole statement is one atomic state transformation. -/
def acquire_users_atomic (role : String) (count : Nat) (test_execution_id : String)
    (now : Nat) (s : DBState) : List CertaUser × DBState :=
  let user_ids := (claim_candidates role count s).map (fun u => u.id)
  if user_ids.isEmpty then
    ([], s)
  else
    ((locked_update user_ids test_execution_id now s.users).filter
        (fun u => user_ids.contains u.id),
     { s with users := locked_update user_ids test_execution_id now s.users })

/-- The `for role, count in role_requirements.items()` loop of
`UserPoolService._attempt_acquisition` (`src/pools/pool_service.py`):
claim each role in turn, accumulating the acquired users; on a shortage
raise `InsufficientUsersException` with the shortage details. -/
def attempt_go (test_execution_id : String) (now : Nat) :
    List (String × Nat) → DBState → List CertaUser → Except PyError (List CertaUser × DBState)
  | [], s, acc => .ok (acc, s)
  | (role, count) :: rest, s, acc =>
    let res := acquire_users_atomic role count test_execution_id now s
    if res.1.length < count then
      .error (.insufficientUsers
        { message := "Insufficient " ++ role ++ " users",
          role := some role, required := some count, available := some res.1.length })
    else
      attempt_go test_execution_id now rest res.2 (acc ++ res.1)

/-- `UserPoolService._attempt_acquisition` (`src/pools/pool_service.py`):
one acquisition attempt.  On success the transaction commits (new state is
kept); on any exception — shortage or transient store error — the
`except Exception` handler rolls the session back, so the returned state is
the one from the start of the attempt, and the exception is re-raised. -/
def attempt_acquisition (test_execution_id : String) (role_requirements : List (String × Nat))
    (now : Nat) (store_fails : Bool) (s : DBState) :
    Except PyError (List CertaUser) × DBState :=
  if store_fails then
    (.error (.storeError "transient store error"), s)
  else
    match attempt_go test_execution_id now role_requirements s [] with
    | .ok (users, s') => (.ok users, s')
    | .error e => (.error e, s)

/-- `TestExecution.mark_running` (`src/executions/execution_models.py`). -/
def TestExecution.mark_running (ex : TestExecution) (now : Nat) : TestExecution :=
  { ex with status := .running, acquired_at := some now }

/-- `TestExecution.mark_completed` (`src/executions/execution_models.py`). -/
def TestExecution.mark_completed (ex : TestExecution) (now : Nat) : TestExecution :=
  { ex with status := .completed, completed_at := some now }

/-- `TestExecution.mark_failed` (`src/executions/execution_models.py`). -/
def TestExecution.mark_failed (ex : TestExecution) (now : Nat) : TestExecution :=
  { ex with status := .failed, completed_at := some now }

/-- Applying an ORM mutation of the execution object with primary key `e`
to the stored table. -/
def update_execution (e : String) (f : TestExecution → TestExecution)
    (xs : List TestExecution) : List TestExecution :=
  xs.map (fun ex => if ex.id == e then f ex else ex)

/-- The state after inserting a fresh ACQUIRING `TestExecution` row. -/
def with_new_execution (test_execution_id : String) (requested_roles : List (String × Nat))
    (now : Nat) (s : DBState) : DBState :=
  { s with executions := s.executions ++
      [{ id := test_execution_id, requested_roles := requested_roles,
         status := .acquiring, created_at := some now,
         acquired_at := none, completed_at := none }] }

/-- `TestExecutionRepository.create_execution` followed by the
`session.commit()` in `acquire_users`: insert a fresh `TestExecution` row
with status ACQUIRING; a duplicate primary key makes `session.flush()`
raise the store's `IntegrityError` and nothing is committed. -/
def create_execution (test_execution_id : String) (requested_roles : List (String × Nat))
    (now : Nat) (s : DBState) : Except PyError DBState :=
  if s.executions.any (fun ex => ex.id == test_execution_id) then
    .error (.integrityError
      ("duplicate key value violates unique constraint: " ++ test_execution_id))
  else
    .ok (with_new_execution test_execution_id requested_roles now s)

/-- The `for attempt in range(max_retries)` loop of
`UserPoolService.acquire_users` (`src/pools/pool_service.py`).
`attempt` is the current attempt index (used for the transient-error
schedule), `remaining + 1` the number of loop iterations still to run, so
the Python guard `attempt < max_retries - 1` is `remaining != 0`.  Only
`InsufficientUsersException` is caught by the loop; any other exception
propagates.  The `time.sleep(wait_time)` between attempts does not change
the store state and is not represented. -/
def acquire_loop (test_execution_id : String) (role_requirements : List (String × Nat))
    (transient : Nat → Bool) (now : Nat) (max_retries : Nat) :
    Nat → Nat → DBState → Except PyError (List CertaUser) × DBState
  | _, 0, s =>
    (.error (.acquisitionTimeout { message := "Unexpected error in user acquisition" }), s)
  | attempt, remaining + 1, s =>
    match attempt_acquisition test_execution_id role_requirements now (transient attempt) s with
    | (.ok users, s') =>
      (.ok users,
       { s' with executions :=
           update_execution test_execution_id (fun ex => ex.mark_running now) s'.executions })
    | (.error (.insufficientUsers d), s') =>
      if remaining == 0 then
        (.error (.acquisitionTimeout
          { message := "Could not acquire users after " ++ toString max_retries ++
              " attempts: " ++ d.message }),
         { s' with executions :=
             update_execution test_execution_id (fun ex => ex.mark_failed now) s'.executions })
      else
        acquire_loop test_execution_id role_requirements transient now max_retries
          (attempt + 1) remaining s'
    | (.error e, s') => (.error e, s')

/-- `UserPoolService.acquire_users` (`src/pools/pool_service.py`):
resolve the retry count default, create the execution record (commit), then
run the attempt loop. -/
def acquire_users (settings : Settings) (test_execution_id : String)
    (role_requirements : List (String × Nat)) (max_retries : Option Nat)
    (transient : Nat → Bool) (now : Nat) (s : DBState) :
    Except PyError (List CertaUser) × DBState :=
  let m := max_retries.getD settings.default_max_retries
  match create_execution test_execution_id role_requirements now s with
  | .error e => (.error e, s)
  | .ok s1 => acquire_loop test_execution_id role_requirements transient now m 0 m s1

/-- Effect of the `UPDATE certa_users SET is_locked = false, locked_by =
NULL, locked_at = NULL` statement on one matching row. -/
def unlock_user (u : CertaUser) : CertaUser :=
  { u with is_locked := false, locked_by := none, locked_at := none }

/-- `UserRepository.release_by_test_execution`
(`src/users/user_repository.py`): clear the lease fields of every row with
`locked_by = :test_id`; the result is the statement's row count. -/
def release_by_test_execution (test_execution_id : String) (s : DBState) : Nat × DBState :=
  (s.users.countP (fun u => u.locked_by == some test_execution_id),
   { s with users := s.users.map
                (fun u => if u.locked_by == some test_execution_id then unlock_user u else u) })

/-- `UserPoolService.release_users` (`src/pools/pool_service.py`): release
the rows, then — whenever the execution record exists — `mark_completed()`
on it, and commit. -/
def release_users (test_execution_id : String) (now : Nat) (s : DBState) : Nat × DBState :=
  let res := release_by_test_execution test_execution_id s
  let s' := res.2
  if s'.executions.any (fun ex => ex.id == test_execution_id) then
    (res.1,
     { s' with executions :=
         update_execution test_execution_id (fun ex => ex.mark_completed now) s'.executions })
  else
    (res.1, s')

/-- `UserPoolService._calculate_backoff` (`src/pools/pool_service.py`):
`min(2 ** attempt, settings.max_retry_wait_seconds) * jitter`, with the
sampled `random.uniform(0.5, 1.5)` value passed in as `jitter`. -/
def calculate_backoff (settings : Settings) (attempt : Nat) (jitter : ℚ) : ℚ :=
  min ((2 : ℚ) ^ attempt) (settings.max_retry_wait_seconds : ℚ) * jitter

/-- An interleaving step other executions can take on the shared store while
an acquisition is outstanding: a (committed-or-rolled-back) acquisition
attempt, or a release.  The `FOR UPDATE SKIP LOCKED` grant primitive of
section 4.1 makes a competing claim-and-commit atomic with respect to other
claimers (rows claimed but not yet committed are skipped, never observed
half-claimed), which is what justifies attempt-granularity interleaving. -/
inductive PoolOp where
  | attemptOp (test_execution_id : String) (role_requirements : List (String × Nat))
      (now : Nat) (store_fails : Bool)
  | releaseOp (test_execution_id : String) (now : Nat)

/-- State effect of one interleaved operation. -/
def apply_op (s : DBState) : PoolOp → DBState
  | .attemptOp e reqs now f => (attempt_acquisition e reqs now f s).2
  | .releaseOp e now => (release_users e now s).2

/-- The operation is not a release of execution `a`. -/
def not_release_of (a : String) : PoolOp → Prop
  | .releaseOp e _ => e ≠ a
  | .attemptOp _ _ _ _ => True

/-- Primary-key uniqueness of the `certa_users` table. -/
def users_nodup (s : DBState) : Prop :=
  (s.users.map (fun u => u.id)).Nodup

/-- Total number of requested users, `sum(req.values())`. -/
def sum_counts (reqs : List (String × Nat)) : Nat :=
  (reqs.map (fun rc => rc.2)).sum

/-- `TestExecutionRepository.get_by_id` (`src/executions/execution_repository.py`). -/
def get_by_id (s : DBState) (test_execution_id : String) : Option TestExecution :=
  s.executions.find? (fun ex => ex.id == test_execution_id)

/-- Validation that `CertaUserAcquisitionRequest`
(`src/executions/execution_schemas.py`) performs on an acquisition request:
`test_execution_id` has `min_length=1, max_length=255`, `max_retries` has
`ge=1, le=50`; the values of `role_requirements` carry no constraint. -/
def acquisition_request_valid (test_execution_id : String)
    (_role_requirements : List (String × Nat)) (max_retries : Nat) : Bool :=
  1 ≤ test_execution_id.length && test_execution_id.length ≤ 255 &&
    1 ≤ max_retries && max_retries ≤ 50

/-! ## Concrete fixtures for the end-to-end scenarios -/

/-- A healthy, unleased pool account. -/
def sample_user (i : Nat) (r : String) : CertaUser :=
  { id := i, email := "user" ++ toString i, password := "pw", role := r,
    tenant := none, domain := none, tags := none,
    is_locked := false, is_healthy := true, locked_by := none, locked_at := none }

/-- The same account after `acquire_users_atomic` locked it for `e` at `t`. -/
def locked_sample_user (i : Nat) (r e : String) (t : Nat) : CertaUser :=
  { id := i, email := "user" ++ toString i, password := "pw", role := r,
    tenant := none, domain := none, tags := none,
    is_locked := true, is_healthy := true, locked_by := some e, locked_at := some t }

/-- Directory of scenario S1: three clients, two vendors, all available. -/
def sample_pool : DBState :=
  { users := [sample_user 1 "client", sample_user 2 "client", sample_user 3 "client",
              sample_user 10 "vendor", sample_user 11 "vendor"],
    executions := [] }

/-- Directory of scenario S3: a single client. -/
def one_client_pool : DBState :=
  { users := [sample_user 1 "client"], executions := [] }

/-- A store that never raises a transient error. -/
def no_transient : Nat → Bool := fun _ => false

/-- The exception data raised in the concrete run of scenario S3. -/
def c5_data : ExcData :=
  { message := "Could not acquire users after 3 attempts: Insufficient client users",
    role := none, required := none, available := none }

/-- The store state after the concrete run of scenario S3. -/
def c5_failed_state : DBState :=
  { users := [sample_user 1 "client"],
    executions := [{ id := "t2", requested_roles := [("client", 2)],
                     status := .failed, created_at := some 7,
                     acquired_at := none, completed_at := some 7 }] }

/-- User 1 after the one-client acquisition run. -/
def w1_user : CertaUser := locked_sample_user 1 "client" "w1" 3

/-- Store state after the one-client acquisition run. -/
def w1_state : DBState :=
  { users := [w1_user],
    executions := [{ id := "w1", requested_roles := [("client", 1)],
                     status := .running, created_at := some 3,
                     acquired_at := some 3, completed_at := none }] }

/-- Store state after the acquire-then-release run: one client leased by t7,
execution RUNNING. -/
def c7_state : DBState :=
  { users := [locked_sample_user 1 "client" "t7" 3],
    executions := [{ id := "t7", requested_roles := [("client", 1)], status := .running,
                     created_at := some 3, acquired_at := some 3,
                     completed_at := none }] }

/-- Same state after the first release at time 5. -/
def c7_after_release : DBState := (release_users "t7" 5 c7_state).2

/-- Users leased to acquisition A of the overlapping-acquisitions run. -/
def c3_usA : List CertaUser :=
  [locked_sample_user 1 "client" "wA" 3, locked_sample_user 2 "client" "wA" 3]

/-- Store state after acquisition A of the overlapping-acquisitions run. -/
def c3_s2 : DBState :=
  { users := [locked_sample_user 1 "client" "wA" 3, locked_sample_user 2 "client" "wA" 3,
              sample_user 3 "client", sample_user 10 "vendor", sample_user 11 "vendor"],
    executions := [{ id := "wA", requested_roles := [("client", 2)], status := .running,
                     created_at := some 3, acquired_at := some 3,
                     completed_at := none }] }

/-- Users leased to acquisition B of the overlapping-acquisitions run. -/
def c3_usB : List CertaUser := [locked_sample_user 3 "client" "wB" 4]

/-- Store state after acquisition B of the overlapping-acquisitions run. -/
def c3_s4 : DBState :=
  { users := [locked_sample_user 1 "client" "wA" 3, locked_sample_user 2 "client" "wA" 3,
              locked_sample_user 3 "client" "wB" 4, sample_user 10 "vendor",
              sample_user 11 "vendor"],
    executions := [{ id := "wA", requested_roles := [("client", 2)], status := .running,
                     created_at := some 3, acquired_at := some 3, completed_at := none },
                   { id := "wB", requested_roles := [("client", 1)], status := .running,
                     created_at := some 4, acquired_at := some 4,
                     completed_at := none }] }

/-! ## Facts about the claim primitive -/

theorem sort_insert_perm (le : CertaUser → CertaUser → Bool) (u : CertaUser) :
    ∀ l : List CertaUser, (sort_insert le u l).Perm (u :: l)
  | [] => List.Perm.refl _
  | v :: l => by
    unfold sort_insert
    split
    · exact List.Perm.refl _
    · exact ((sort_insert_perm le u l).cons v).trans (List.Perm.swap u v l)

theorem sort_by_perm (le : CertaUser → CertaUser → Bool) :
    ∀ l : List CertaUser, (sort_by le l).Perm l
  | [] => List.Perm.refl _
  | u :: l => (sort_insert_perm le u (sort_by le l)).trans ((sort_by_perm le l).cons u)

theorem mem_claim_candidates {role : String} {count : Nat} {s : DBState} {c : CertaUser}
    (h : c ∈ claim_candidates role count s) :
    c ∈ s.users ∧ available_for_role role c = true := by
  unfold claim_candidates at h
  have h1 := List.mem_of_mem_take h
  rw [(sort_by_perm locked_at_le _).mem_iff, List.mem_filter] at h1
  exact h1

theorem claim_candidates_length_le (role : String) (count : Nat) (s : DBState) :
    (claim_candidates role count s).length ≤ count := by
  unfold claim_candidates
  exact List.length_take_le _ _

theorem claim_candidates_ids_nodup {s : DBState} (h : users_nodup s)
    (role : String) (count : Nat) :
    ((claim_candidates role count s).map (fun u => u.id)).Nodup := by
  have hfil : ((s.users.filter (available_for_role role)).map (fun u => u.id)).Nodup :=
    h.sublist ((List.filter_sublist s.users).map _)
  have hperm : ((sort_by locked_at_le (s.users.filter (available_for_role role))).map
      (fun u => u.id)).Perm ((s.users.filter (available_for_role role)).map (fun u => u.id)) :=
    (sort_by_perm locked_at_le _).map _
  have hms := hperm.nodup_iff.mpr hfil
  unfold claim_candidates
  rw [List.map_take]
  exact hms.sublist (List.take_sublist _ _)

theorem claim_candidates_ids_mem {role : String} {count : Nat} {s : DBState} {i : Nat}
    (h : i ∈ (claim_candidates role count s).map (fun u => u.id)) :
    i ∈ s.users.map (fun u => u.id) := by
  rw [List.mem_map] at h ⊢
  obtain ⟨c, hc, rfl⟩ := h
  exact ⟨c, (mem_claim_candidates hc).1, rfl⟩

theorem locked_update_map_id (user_ids : List Nat) (e : String) (now : Nat)
    (users : List CertaUser) :
    (locked_update user_ids e now users).map (fun u => u.id) = users.map (fun u => u.id) := by
  unfold locked_update
  rw [List.map_map]
  apply List.map_congr_left
  intro u _
  show (if user_ids.contains u.id = true then lock_user e now u else u).id = u.id
  split <;> rfl

theorem acquire_atomic_users_map_id (role : String) (count : Nat) (e : String)
    (now : Nat) (s : DBState) :
    ((acquire_users_atomic role count e now s).2).users.map (fun u => u.id)
      = s.users.map (fun u => u.id) := by
  simp only [acquire_users_atomic]
  split
  · rfl
  · exact locked_update_map_id _ _ _ _

theorem acquire_atomic_users_nodup {s : DBState} (h : users_nodup s)
    (role : String) (count : Nat) (e : String) (now : Nat) :
    users_nodup (acquire_users_atomic role count e now s).2 := by
  unfold users_nodup
  rw [acquire_atomic_users_map_id]
  exact h

theorem eq_of_users_nodup {s : DBState} (h : users_nodup s) {u v : CertaUser}
    (hu : u ∈ s.users) (hv : v ∈ s.users) (hid : u.id = v.id) : u = v :=
  List.inj_on_of_nodup_map h hu hv hid

theorem length_filter_ids_key (K ids : List Nat) (hK : K.Nodup) (hids : ids.Nodup)
    (hsub : ∀ i ∈ ids, i ∈ K) :
    (K.filter (fun i => ids.contains i)).length = ids.length := by
  have h1 : (K.filter (fun i => ids.contains i)).Nodup := hK.filter _
  rw [← List.toFinset_card_of_nodup h1, ← List.toFinset_card_of_nodup hids]
  congr 1
  rw [List.toFinset_filter]
  ext x
  simp only [Finset.mem_filter, List.mem_toFinset, List.elem_iff, decide_eq_true_eq]
  exact ⟨fun hx => hx.2, fun hx => ⟨hsub x hx, hx⟩⟩

theorem length_filter_ids (l : List CertaUser) (ids : List Nat)
    (hl : (l.map (fun u => u.id)).Nodup) (hids : ids.Nodup)
    (hsub : ∀ i ∈ ids, i ∈ l.map (fun u => u.id)) :
    (l.filter (fun u => ids.contains u.id)).length = ids.length := by
  have hmap : (l.filter (fun u => ids.contains u.id)).map (fun u => u.id)
      = (l.map (fun u => u.id)).filter (fun i => ids.contains i) := by
    simp [List.filter_map, Function.comp_def]
  have hlen : (l.filter (fun u => ids.contains u.id)).length
      = ((l.map (fun u => u.id)).filter (fun i => ids.contains i)).length := by
    rw [← hmap, List.length_map]
  rw [hlen]
  exact length_filter_ids_key _ _ hl hids hsub

theorem claim_result_length {s : DBState} (h : users_nodup s)
    (role : String) (count : Nat) (e : String) (now : Nat) :
    (acquire_users_atomic role count e now s).1.length
      = (claim_candidates role count s).length := by
  cases hemp : ((claim_candidates role count s).map (fun u => u.id)).isEmpty with
  | true =>
    rw [List.isEmpty_iff] at hemp
    have hc : claim_candidates role count s = [] := List.map_eq_nil_iff.mp hemp
    simp [acquire_users_atomic, hc]
  | false =>
    simp only [acquire_users_atomic]
    rw [hemp, if_neg Bool.false_ne_true]
    have hids := claim_candidates_ids_nodup h role count
    rw [length_filter_ids]
    · rw [List.length_map]
    · rw [locked_update_map_id]
      exact h
    · exact hids
    · intro i hi
      rw [locked_update_map_id]
      exact claim_candidates_ids_mem hi

theorem claim_result_length_le {s : DBState} (h : users_nodup s)
    (role : String) (count : Nat) (e : String) (now : Nat) :
    (acquire_users_atomic role count e now s).1.length ≤ count := by
  rw [claim_result_length h]
  exact claim_candidates_length_le role count s

theorem claim_result_mem {role : String} {count : Nat} {e : String} {now : Nat}
    {s : DBState} {u : CertaUser}
    (hu : u ∈ (acquire_users_atomic role count e now s).1) :
    u.is_locked = true ∧ u.locked_by = some e ∧ u.locked_at = some now
      ∧ u ∈ ((acquire_users_atomic role count e now s).2).users := by
  cases hemp : ((claim_candidates role count s).map (fun u => u.id)).isEmpty with
  | true =>
    simp [acquire_users_atomic, hemp] at hu
  | false =>
    simp only [acquire_users_atomic] at hu ⊢
    rw [hemp, if_neg Bool.false_ne_true] at hu ⊢
    obtain ⟨hmem, hcont⟩ := List.mem_filter.mp hu
    obtain ⟨v, hv, hfv⟩ := List.mem_map.mp hmem
    have hid : u.id = v.id := by
      rw [← hfv]
      split <;> rfl
    have hcv : ((claim_candidates role count s).map (fun u => u.id)).contains v.id = true := by
      rw [← hid]
      exact hcont
    have hu_eq : u = lock_user e now v := by
      rw [← hfv, if_pos hcv]
    exact ⟨by rw [hu_eq]; rfl, by rw [hu_eq]; rfl, by rw [hu_eq]; rfl, hmem⟩

theorem claim_result_role {s : DBState} (h : users_nodup s)
    {role : String} {count : Nat} {e : String} {now : Nat} {u : CertaUser}
    (hu : u ∈ (acquire_users_atomic role count e now s).1) :
    u.role = role ∧ ∃ v ∈ s.users, v.id = u.id ∧ v.is_locked = false := by
  cases hemp : ((claim_candidates role count s).map (fun u => u.id)).isEmpty with
  | true =>
    simp [acquire_users_atomic, hemp] at hu
  | false =>
    simp only [acquire_users_atomic] at hu
    rw [hemp, if_neg Bool.false_ne_true] at hu
    obtain ⟨hmem, hcont⟩ := List.mem_filter.mp hu
    obtain ⟨v, hv, hfv⟩ := List.mem_map.mp hmem
    have hid : u.id = v.id := by
      rw [← hfv]
      split <;> rfl
    have hccv : ((claim_candidates role count s).map (fun u => u.id)).contains v.id = true := by
      rw [← hid]
      exact hcont
    have hcv : v.id ∈ (claim_candidates role count s).map (fun u => u.id) :=
      List.elem_iff.mp hccv
    obtain ⟨c, hc, hcid⟩ := List.mem_map.mp hcv
    have hcand := mem_claim_candidates hc
    have hceq : c = v := eq_of_users_nodup h hcand.1 hv hcid
    have havail := hcand.2
    unfold available_for_role at havail
    simp only [Bool.and_eq_true, beq_iff_eq, Bool.not_eq_true'] at havail
    have hvrole : v.role = role := hceq ▸ havail.1.1
    have hvlock : v.is_locked = false := hceq ▸ havail.1.2
    have hu_eq : u = lock_user e now v := by
      rw [← hfv, if_pos hccv]
    constructor
    · rw [hu_eq]
      exact hvrole
    · exact ⟨v, hv, hid.symm, hvlock⟩

theorem claim_preserves_locked {s : DBState} (h : users_nodup s) {v : CertaUser}
    (hv : v ∈ s.users) (hlock : v.is_locked = true)
    (role : String) (count : Nat) (e : String) (now : Nat) :
    v ∈ ((acquire_users_atomic role count e now s).2).users := by
  cases hemp : ((claim_candidates role count s).map (fun u => u.id)).isEmpty with
  | true =>
    simp only [acquire_users_atomic]
    rw [hemp, if_pos rfl]
    exact hv
  | false =>
    simp only [acquire_users_atomic]
    rw [hemp, if_neg Bool.false_ne_true]
    have hnc : ((claim_candidates role count s).map (fun u => u.id)).contains v.id = false := by
      by_contra hcc
      rw [Bool.not_eq_false, List.elem_iff] at hcc
      obtain ⟨c, hc, hcid⟩ := List.mem_map.mp hcc
      have hcand := mem_claim_candidates hc
      have hceq : c = v := eq_of_users_nodup h hcand.1 hv hcid
      have havail := hcand.2
      unfold available_for_role at havail
      simp only [Bool.and_eq_true, Bool.not_eq_true'] at havail
      rw [hceq] at havail
      rw [havail.1.2] at hlock
      exact Bool.false_ne_true hlock
    unfold locked_update
    rw [List.mem_map]
    refine ⟨v, hv, ?_⟩
    rw [hnc, if_neg Bool.false_ne_true]

/-! ## Counting leased rows -/

theorem countP_locked_update (l : List CertaUser) (ids : List Nat) (e : String) (now : Nat)
    (h : ∀ u ∈ l, ids.contains u.id = true → u.locked_by ≠ some e) :
    (locked_update ids e now l).countP (fun u => u.locked_by == some e)
      = l.countP (fun u => u.locked_by == some e) + l.countP (fun u => ids.contains u.id) := by
  induction l with
  | nil => rfl
  | cons u l ih =>
    have hu := h u (List.mem_cons_self u l)
    have hrest : ∀ v ∈ l, ids.contains v.id = true → v.locked_by ≠ some e :=
      fun v hv => h v (List.mem_cons_of_mem u hv)
    unfold locked_update at ih ⊢
    simp only [List.map_cons, List.countP_cons]
    rw [ih hrest]
    cases hc : ids.contains u.id with
    | true =>
      have hbeq : (u.locked_by == some e) = false := by
        rw [beq_eq_false_iff_ne]
        exact hu hc
      simp [hc, lock_user, hbeq]
      omega
    | false =>
      simp [hc]
      omega

theorem claim_countP {s : DBState} {e : String} (h : users_nodup s)
    (hinv : ∀ u ∈ s.users, u.is_locked = false → u.locked_by ≠ some e)
    (role : String) (count : Nat) (now : Nat) :
    ((acquire_users_atomic role count e now s).2).users.countP (fun u => u.locked_by == some e)
      = s.users.countP (fun u => u.locked_by == some e)
        + (acquire_users_atomic role count e now s).1.length := by
  cases hemp : ((claim_candidates role count s).map (fun u => u.id)).isEmpty with
  | true =>
    simp only [acquire_users_atomic]
    rw [hemp, if_pos rfl]
    simp
  | false =>
    simp only [acquire_users_atomic]
    rw [hemp, if_neg Bool.false_ne_true]
    have hids := claim_candidates_ids_nodup h role count
    have hpre : ∀ u ∈ s.users,
        ((claim_candidates role count s).map (fun u => u.id)).contains u.id = true →
          u.locked_by ≠ some e := by
      intro u hu hcu
      obtain ⟨c, hc, hcid⟩ := List.mem_map.mp (List.elem_iff.mp hcu)
      have hcand := mem_claim_candidates hc
      have hceq : c = u := eq_of_users_nodup h hcand.1 hu hcid
      have havail := hcand.2
      unfold available_for_role at havail
      simp only [Bool.and_eq_true, Bool.not_eq_true'] at havail
      exact hinv u hu (hceq ▸ havail.1.2)
    rw [countP_locked_update _ _ _ _ hpre]
    congr 1
    rw [List.countP_eq_length_filter]
    rw [length_filter_ids s.users _ h hids (fun i hi => claim_candidates_ids_mem hi)]
    rw [length_filter_ids _ _ (by rw [locked_update_map_id]; exact h) hids
      (fun i hi => by rw [locked_update_map_id]; exact claim_candidates_ids_mem hi)]

theorem claim_preserves_inv {s : DBState} {e : String}
    (hinv : ∀ u ∈ s.users, u.is_locked = false → u.locked_by ≠ some e)
    (role : String) (count : Nat) (now : Nat) :
    ∀ u ∈ ((acquire_users_atomic role count e now s).2).users,
      u.is_locked = false → u.locked_by ≠ some e := by
  cases hemp : ((claim_candidates role count s).map (fun u => u.id)).isEmpty with
  | true =>
    simp only [acquire_users_atomic]
    rw [hemp, if_pos rfl]
    exact hinv
  | false =>
    simp only [acquire_users_atomic]
    rw [hemp, if_neg Bool.false_ne_true]
    intro u hu hul
    unfold locked_update at hu
    obtain ⟨v, hv, hfv⟩ := List.mem_map.mp hu
    cases hc : ((claim_candidates role count s).map (fun u => u.id)).contains v.id with
    | true =>
      rw [if_pos hc] at hfv
      rw [← hfv] at hul
      exact absurd hul (by simp [lock_user])
    | false =>
      rw [if_neg (by rw [hc]; exact Bool.false_ne_true)] at hfv
      rw [← hfv] at hul ⊢
      exact hinv v hv hul

/-! ## Facts about release -/

theorem release_users_users_eq (e : String) (now : Nat) (s : DBState) :
    ((release_users e now s).2).users
      = s.users.map (fun u => if u.locked_by == some e then unlock_user u else u) := by
  simp only [release_users, release_by_test_execution]
  split <;> rfl

theorem release_users_count_eq (e : String) (now : Nat) (s : DBState) :
    (release_users e now s).1 = s.users.countP (fun u => u.locked_by == some e) := by
  simp only [release_users, release_by_test_execution]
  split <;> rfl

theorem countP_release_zero (e : String) (l : List CertaUser) :
    (l.map (fun u => if u.locked_by == some e then unlock_user u else u)).countP
      (fun u => u.locked_by == some e) = 0 := by
  rw [List.countP_eq_zero]
  intro u hu
  obtain ⟨v, hv, hfv⟩ := List.mem_map.mp hu
  cases hc : v.locked_by == some e with
  | true =>
    rw [if_pos hc] at hfv
    rw [← hfv]
    simp [unlock_user]
  | false =>
    rw [if_neg (by rw [hc]; exact Bool.false_ne_true)] at hfv
    rw [← hfv]
    simp only [hc]
    exact Bool.false_ne_true

theorem release_preserves_other {e a : String} (hne : e ≠ a) {s : DBState} {now : Nat}
    {v : CertaUser} (hv : v ∈ s.users) (hvby : v.locked_by = some a) :
    v ∈ ((release_users e now s).2).users := by
  rw [release_users_users_eq]
  rw [List.mem_map]
  refine ⟨v, hv, ?_⟩
  rw [if_neg]
  rw [hvby]
  simp
  exact fun hx => hne hx.symm

theorem release_users_map_id (e : String) (now : Nat) (s : DBState) :
    ((release_users e now s).2).users.map (fun u => u.id) = s.users.map (fun u => u.id) := by
  rw [release_users_users_eq, List.map_map]
  apply List.map_congr_left
  intro u _
  show (if u.locked_by == some e then unlock_user u else u).id = u.id
  split <;> rfl

/-! ## The per-role loop of a single acquisition attempt -/

theorem attempt_go_ids {e : String} {now : Nat} :
    ∀ (reqs : List (String × Nat)) (s : DBState) (acc us : List CertaUser) (s' : DBState),
      attempt_go e now reqs s acc = .ok (us, s') →
      s'.users.map (fun u => u.id) = s.users.map (fun u => u.id) := by
  intro reqs
  induction reqs with
  | nil =>
    intro s acc us s' h
    simp only [attempt_go, Except.ok.injEq, Prod.mk.injEq] at h
    rw [← h.2]
  | cons rc rest ih =>
    intro s acc us s' h
    obtain ⟨role, count⟩ := rc
    simp only [attempt_go] at h
    split at h
    · exact Except.noConfusion h
    · rw [ih _ _ _ _ h, acquire_atomic_users_map_id]

theorem attempt_go_nodup {e : String} {now : Nat} {reqs : List (String × Nat)}
    {s : DBState} {acc us : List CertaUser} {s' : DBState}
    (h : attempt_go e now reqs s acc = .ok (us, s')) (hn : users_nodup s) :
    users_nodup s' := by
  unfold users_nodup
  rw [attempt_go_ids reqs s acc us s' h]
  exact hn

theorem attempt_go_results {e : String} {now : Nat} :
    ∀ (reqs : List (String × Nat)) (s : DBState) (acc us : List CertaUser) (s' : DBState),
      attempt_go e now reqs s acc = .ok (us, s') →
      users_nodup s →
      (∀ a ∈ acc, a.is_locked = true ∧ a.locked_by = some e) →
      (∀ a ∈ acc, ∃ w ∈ s.users, w.id = a.id ∧ w.is_locked = true ∧ w.locked_by = some e) →
      (∀ u ∈ us, u.is_locked = true ∧ u.locked_by = some e) ∧
      (∀ u ∈ us, ∃ w ∈ s'.users, w.id = u.id ∧ w.is_locked = true ∧ w.locked_by = some e) := by
  intro reqs
  induction reqs with
  | nil =>
    intro s acc us s' h hn hsnap hrow
    simp only [attempt_go, Except.ok.injEq, Prod.mk.injEq] at h
    rw [← h.1, ← h.2]
    exact ⟨hsnap, hrow⟩
  | cons rc rest ih =>
    intro s acc us s' h hn hsnap hrow
    obtain ⟨role, count⟩ := rc
    simp only [attempt_go] at h
    split at h
    · exact Except.noConfusion h
    · refine ih _ _ _ _ h (acquire_atomic_users_nodup hn role count e now) ?_ ?_
      · intro a ha
        rcases List.mem_append.mp ha with hacc | hnew
        · exact hsnap a hacc
        · have hm := claim_result_mem hnew
          exact ⟨hm.1, hm.2.1⟩
      · intro a ha
        rcases List.mem_append.mp ha with hacc | hnew
        · obtain ⟨w, hw, hwid, hwl, hwby⟩ := hrow a hacc
          exact ⟨w, claim_preserves_locked hn hw hwl role count e now, hwid, hwl, hwby⟩
        · have hm := claim_result_mem hnew
          exact ⟨a, hm.2.2.2, rfl, hm.1, hm.2.1⟩

theorem attempt_go_avoid {e : String} {now : Nat} :
    ∀ (reqs : List (String × Nat)) (s : DBState) (acc us : List CertaUser) (s' : DBState)
      (w : CertaUser),
      attempt_go e now reqs s acc = .ok (us, s') →
      users_nodup s →
      w ∈ s.users → w.is_locked = true →
      (∀ a ∈ acc, a.id ≠ w.id) →
      w ∈ s'.users ∧ ∀ u ∈ us, u.id ≠ w.id := by
  intro reqs
  induction reqs with
  | nil =>
    intro s acc us s' w h hn hw hwl hacc
    simp only [attempt_go, Except.ok.injEq, Prod.mk.injEq] at h
    rw [← h.1, ← h.2]
    exact ⟨hw, hacc⟩
  | cons rc rest ih =>
    intro s acc us s' w h hn hw hwl hacc
    obtain ⟨role, count⟩ := rc
    simp only [attempt_go] at h
    split at h
    · exact Except.noConfusion h
    · refine ih _ _ _ _ w h (acquire_atomic_users_nodup hn role count e now)
        (claim_preserves_locked hn hw hwl role count e now) hwl ?_
      intro a ha
      rcases List.mem_append.mp ha with hold | hnew
      · exact hacc a hold
      · intro haw
        obtain ⟨-, x, hx, hxid, hxlock⟩ := claim_result_role hn hnew
        have hxw : x = w := eq_of_users_nodup hn hx hw (by rw [hxid, haw])
        rw [hxw] at hxlock
        rw [hxlock] at hwl
        exact Bool.false_ne_true hwl

theorem attempt_go_filter_not_mem {e : String} {now : Nat} :
    ∀ (reqs : List (String × Nat)) (s : DBState) (acc us : List CertaUser) (s' : DBState),
      attempt_go e now reqs s acc = .ok (us, s') →
      users_nodup s →
      ∀ r, r ∉ reqs.map Prod.fst →
        (us.filter (fun u => u.role == r)).length = (acc.filter (fun u => u.role == r)).length := by
  intro reqs
  induction reqs with
  | nil =>
    intro s acc us s' h hn r hr
    simp only [attempt_go, Except.ok.injEq, Prod.mk.injEq] at h
    rw [← h.1]
  | cons rc rest ih =>
    intro s acc us s' h hn r hr
    obtain ⟨role, count⟩ := rc
    rw [List.map_cons, List.mem_cons] at hr
    push_neg at hr
    simp only [attempt_go] at h
    split at h
    · exact Except.noConfusion h
    · have hstep := ih _ _ _ _ h (acquire_atomic_users_nodup hn role count e now) r hr.2
      rw [hstep, List.filter_append, List.length_append]
      have hnil : ((acquire_users_atomic role count e now s).1.filter
          (fun u => u.role == r)).length = 0 := by
        rw [List.length_eq_zero, List.filter_eq_nil_iff]
        intro v hv
        have hrole := (claim_result_role hn hv).1
        simp only [beq_iff_eq, hrole]
        exact fun hc => hr.1 hc.symm
      rw [hnil]
      omega

theorem attempt_go_filter_mem {e : String} {now : Nat} :
    ∀ (reqs : List (String × Nat)) (s : DBState) (acc us : List CertaUser) (s' : DBState),
      attempt_go e now reqs s acc = .ok (us, s') →
      users_nodup s →
      (reqs.map Prod.fst).Nodup →
      ∀ r c, (r, c) ∈ reqs →
        (us.filter (fun u => u.role == r)).length
          = (acc.filter (fun u => u.role == r)).length + c := by
  intro reqs
  induction reqs with
  | nil =>
    intro s acc us s' h hn hkeys r c hrc
    exact absurd hrc (List.not_mem_nil (r, c))
  | cons rc rest ih =>
    intro s acc us s' h hn hkeys r c hrc
    obtain ⟨role, count⟩ := rc
    rw [List.map_cons, List.nodup_cons] at hkeys
    simp only [attempt_go] at h
    split at h
    · exact Except.noConfusion h
    · rename_i hlen
      have hn1 := acquire_atomic_users_nodup hn role count e now
      have hchunklen : (acquire_users_atomic role count e now s).1.length = count := by
        have h1 := claim_result_length_le hn role count e now
        omega
      rcases List.mem_cons.mp hrc with heq | hmem
      · obtain ⟨hr, hc⟩ := Prod.mk.injEq .. ▸ heq
        subst hr
        subst hc
        have hnot := attempt_go_filter_not_mem rest _ _ us s' h hn1 r hkeys.1
        rw [hnot, List.filter_append, List.length_append]
        have hself : (acquire_users_atomic r c e now s).1.filter
            (fun u => u.role == r) = (acquire_users_atomic r c e now s).1 := by
          rw [List.filter_eq_self]
          intro v hv
          simp only [beq_iff_eq]
          exact (claim_result_role hn hv).1
        rw [hself, hchunklen]
      · have hne : r ≠ role := by
          intro hcontra
          exact hkeys.1 (hcontra ▸ List.mem_map.mpr ⟨(r, c), hmem, rfl⟩)
        have hstep := ih _ _ us s' h hn1 hkeys.2 r c hmem
        rw [hstep, List.filter_append, List.length_append]
        have hnil : ((acquire_users_atomic role count e now s).1.filter
            (fun u => u.role == r)).length = 0 := by
          rw [List.length_eq_zero, List.filter_eq_nil_iff]
          intro v hv
          have hrole := (claim_result_role hn hv).1
          simp only [beq_iff_eq, hrole]
          exact fun hcontra => hne hcontra.symm
        rw [hnil]
        omega

theorem attempt_go_length {e : String} {now : Nat} :
    ∀ (reqs : List (String × Nat)) (s : DBState) (acc us : List CertaUser) (s' : DBState),
      attempt_go e now reqs s acc = .ok (us, s') →
      users_nodup s →
      us.length = acc.length + sum_counts reqs := by
  intro reqs
  induction reqs with
  | nil =>
    intro s acc us s' h hn
    simp only [attempt_go, Except.ok.injEq, Prod.mk.injEq] at h
    rw [← h.1]
    simp [sum_counts]
  | cons rc rest ih =>
    intro s acc us s' h hn
    obtain ⟨role, count⟩ := rc
    simp only [attempt_go] at h
    split at h
    · exact Except.noConfusion h
    · rename_i hlen
      have hchunklen : (acquire_users_atomic role count e now s).1.length = count := by
        have h1 := claim_result_length_le hn role count e now
        omega
      have hstep := ih _ _ us s' h (acquire_atomic_users_nodup hn role count e now)
      rw [hstep, List.length_append, hchunklen]
      simp only [sum_counts, List.map_cons, List.sum_cons]
      omega

theorem attempt_go_countP {e : String} {now : Nat} :
    ∀ (reqs : List (String × Nat)) (s : DBState) (acc us : List CertaUser) (s' : DBState),
      attempt_go e now reqs s acc = .ok (us, s') →
      users_nodup s →
      (∀ u ∈ s.users, u.is_locked = false → u.locked_by ≠ some e) →
      s'.users.countP (fun u => u.locked_by == some e) + acc.length
        = s.users.countP (fun u => u.locked_by == some e) + us.length := by
  intro reqs
  induction reqs with
  | nil =>
    intro s acc us s' h hn hinv
    simp only [attempt_go, Except.ok.injEq, Prod.mk.injEq] at h
    rw [← h.1, ← h.2]
  | cons rc rest ih =>
    intro s acc us s' h hn hinv
    obtain ⟨role, count⟩ := rc
    simp only [attempt_go] at h
    split at h
    · exact Except.noConfusion h
    · have hclaim := claim_countP hn hinv role count now
      have hstep := ih _ _ us s' h (acquire_atomic_users_nodup hn role count e now)
        (claim_preserves_inv hinv role count now)
      rw [List.length_append] at hstep
      omega

theorem acquire_atomic_executions (role : String) (count : Nat) (e : String)
    (now : Nat) (s : DBState) :
    ((acquire_users_atomic role count e now s).2).executions = s.executions := by
  simp only [acquire_users_atomic]
  split <;> rfl

theorem attempt_go_executions {e : String} {now : Nat} :
    ∀ (reqs : List (String × Nat)) (s : DBState) (acc us : List CertaUser) (s' : DBState),
      attempt_go e now reqs s acc = .ok (us, s') →
      s'.executions = s.executions := by
  intro reqs
  induction reqs with
  | nil =>
    intro s acc us s' h
    simp only [attempt_go, Except.ok.injEq, Prod.mk.injEq] at h
    rw [← h.2]
  | cons rc rest ih =>
    intro s acc us s' h
    obtain ⟨role, count⟩ := rc
    simp only [attempt_go] at h
    split at h
    · exact Except.noConfusion h
    · rw [ih _ _ _ _ h, acquire_atomic_executions]

theorem attempt_go_error_insufficient {e : String} {now : Nat} :
    ∀ (reqs : List (String × Nat)) (s : DBState) (acc : List CertaUser) (err : PyError),
      attempt_go e now reqs s acc = .error err →
      ∃ d, err = .insufficientUsers d := by
  intro reqs
  induction reqs with
  | nil =>
    intro s acc err h
    exact Except.noConfusion h
  | cons rc rest ih =>
    intro s acc err h
    obtain ⟨role, count⟩ := rc
    simp only [attempt_go] at h
    split at h
    · rw [Except.error.injEq] at h
      exact ⟨_, h.symm⟩
    · exact ih _ _ _ h

/-! ## A single acquisition attempt -/

theorem attempt_acquisition_ok {e : String} {reqs : List (String × Nat)} {now : Nat}
    {f : Bool} {s : DBState} {us : List CertaUser} {s2 : DBState}
    (h : attempt_acquisition e reqs now f s = (.ok us, s2)) :
    attempt_go e now reqs s [] = .ok (us, s2) := by
  unfold attempt_acquisition at h
  cases f with
  | true =>
    rw [if_pos rfl] at h
    exact Except.noConfusion (congrArg Prod.fst h)
  | false =>
    rw [if_neg Bool.false_ne_true] at h
    cases hgo : attempt_go e now reqs s [] with
    | ok p =>
      obtain ⟨u', t'⟩ := p
      rw [hgo] at h
      simp only [Prod.mk.injEq, Except.ok.injEq] at h
      rw [h.1, h.2]
    | error err =>
      rw [hgo] at h
      exact Except.noConfusion (congrArg Prod.fst h)

theorem attempt_acquisition_error_state {e : String} {reqs : List (String × Nat)}
    {now : Nat} {f : Bool} {s : DBState} {err : PyError} {s2 : DBState}
    (h : attempt_acquisition e reqs now f s = (.error err, s2)) : s2 = s := by
  unfold attempt_acquisition at h
  cases f with
  | true =>
    rw [if_pos rfl] at h
    exact (congrArg Prod.snd h).symm
  | false =>
    rw [if_neg Bool.false_ne_true] at h
    cases hgo : attempt_go e now reqs s [] with
    | ok p =>
      obtain ⟨u', t'⟩ := p
      rw [hgo] at h
      exact Except.noConfusion (congrArg Prod.fst h)
    | error err' =>
      rw [hgo] at h
      exact (congrArg Prod.snd h).symm

theorem attempt_acquisition_error_kind {e : String} {reqs : List (String × Nat)}
    {now : Nat} {f : Bool} {s : DBState} {err : PyError} {s2 : DBState}
    (h : attempt_acquisition e reqs now f s = (.error err, s2)) :
    (∃ d, err = .insufficientUsers d) ∨ (∃ msg, err = .storeError msg) := by
  unfold attempt_acquisition at h
  cases f with
  | true =>
    rw [if_pos rfl] at h
    have h1 := congrArg Prod.fst h
    rw [Except.error.injEq] at h1
    exact Or.inr ⟨_, h1.symm⟩
  | false =>
    rw [if_neg Bool.false_ne_true] at h
    cases hgo : attempt_go e now reqs s [] with
    | ok p =>
      obtain ⟨u', t'⟩ := p
      rw [hgo] at h
      exact Except.noConfusion (congrArg Prod.fst h)
    | error err' =>
      rw [hgo] at h
      have h1 := congrArg Prod.fst h
      rw [Except.error.injEq] at h1
      exact Or.inl (h1 ▸ attempt_go_error_insufficient reqs s [] err' hgo)

theorem attempt_acquisition_executions (e : String) (reqs : List (String × Nat))
    (now : Nat) (f : Bool) (s : DBState) :
    ((attempt_acquisition e reqs now f s).2).executions = s.executions := by
  rcases hres : attempt_acquisition e reqs now f s with ⟨r, s2⟩
  cases r with
  | ok us => exact attempt_go_executions reqs s [] us s2 (attempt_acquisition_ok hres)
  | error err => rw [attempt_acquisition_error_state hres]

/-! ## The retry loop -/

theorem acquire_loop_ok {e : String} {reqs : List (String × Nat)} {t : Nat → Bool}
    {now m : Nat} :
    ∀ (remaining attempt : Nat) (s : DBState) (us : List CertaUser) (s' : DBState),
      acquire_loop e reqs t now m attempt remaining s = (.ok us, s') →
      ∃ s2, attempt_go e now reqs s [] = .ok (us, s2) ∧
        s' = { s2 with executions :=
          update_execution e (fun ex => ex.mark_running now) s2.executions } := by
  intro remaining
  induction remaining with
  | zero =>
    intro attempt s us s' h
    exact Except.noConfusion (congrArg Prod.fst h)
  | succ r ih =>
    intro attempt s us s' h
    rcases hres : attempt_acquisition e reqs now (t attempt) s with ⟨res, s2⟩
    cases res with
    | ok us0 =>
      simp only [acquire_loop, hres, Prod.mk.injEq, Except.ok.injEq] at h
      refine ⟨s2, ?_, h.2.symm⟩
      rw [← h.1]
      exact attempt_acquisition_ok hres
    | error err =>
      cases err with
      | insufficientUsers d =>
        simp only [acquire_loop, hres] at h
        cases hr : r == 0 with
        | true =>
          rw [hr, if_pos rfl] at h
          exact Except.noConfusion (congrArg Prod.fst h)
        | false =>
          rw [hr, if_neg Bool.false_ne_true] at h
          have hs2 : s2 = s := attempt_acquisition_error_state hres
          rw [hs2] at h
          exact ih _ _ _ _ h
      | acquisitionTimeout d =>
        simp only [acquire_loop, hres] at h
        exact Except.noConfusion (congrArg Prod.fst h)
      | integrityError msg =>
        simp only [acquire_loop, hres] at h
        exact Except.noConfusion (congrArg Prod.fst h)
      | storeError msg =>
        simp only [acquire_loop, hres] at h
        exact Except.noConfusion (congrArg Prod.fst h)

theorem acquire_loop_timeout {e : String} {reqs : List (String × Nat)} {t : Nat → Bool}
    {now m : Nat} :
    ∀ (remaining attempt : Nat) (s : DBState) (d : ExcData) (s' : DBState),
      acquire_loop e reqs t now m attempt remaining s = (.error (.acquisitionTimeout d), s') →
      0 < remaining →
      d.role = none ∧ d.required = none ∧ d.available = none ∧
      (∃ rest, d.message
        = "Could not acquire users after " ++ toString m ++ " attempts: " ++ rest) ∧
      s' = { s with executions :=
        update_execution e (fun ex => ex.mark_failed now) s.executions } := by
  intro remaining
  induction remaining with
  | zero =>
    intro attempt s d s' h hpos
    exact absurd hpos (Nat.lt_irrefl 0)
  | succ r ih =>
    intro attempt s d s' h _
    rcases hres : attempt_acquisition e reqs now (t attempt) s with ⟨res, s2⟩
    cases res with
    | ok us0 =>
      simp only [acquire_loop, hres] at h
      exact Except.noConfusion (congrArg Prod.fst h)
    | error err =>
      have hs2 : s2 = s := attempt_acquisition_error_state hres
      cases err with
      | insufficientUsers d0 =>
        simp only [acquire_loop, hres] at h
        cases hr : r == 0 with
        | true =>
          rw [hr, if_pos rfl] at h
          rw [Prod.mk.injEq] at h
          obtain ⟨h1, h2⟩ := h
          rw [Except.error.injEq, PyError.acquisitionTimeout.injEq] at h1
          rw [← h1]
          refine ⟨rfl, rfl, rfl, ⟨d0.message, rfl⟩, ?_⟩
          rw [← h2, hs2]
        | false =>
          rw [hr, if_neg Bool.false_ne_true] at h
          rw [hs2] at h
          exact ih _ _ _ _ h (Nat.pos_of_ne_zero (by simpa using hr))
      | acquisitionTimeout d0 =>
        rcases attempt_acquisition_error_kind hres with ⟨d1, hd1⟩ | ⟨msg1, hmsg1⟩
        · exact PyError.noConfusion hd1
        · exact PyError.noConfusion hmsg1
      | integrityError msg =>
        rcases attempt_acquisition_error_kind hres with ⟨d1, hd1⟩ | ⟨msg1, hmsg1⟩
        · exact PyError.noConfusion hd1
        · exact PyError.noConfusion hmsg1
      | storeError msg =>
        simp only [acquire_loop, hres] at h
        have h1 := congrArg Prod.fst h
        rw [Except.error.injEq] at h1
        exact PyError.noConfusion h1

theorem acquire_loop_store_error {e : String} {reqs : List (String × Nat)}
    {t : Nat → Bool} {now m attempt r : Nat} {s : DBState}
    (ht : t attempt = true) :
    acquire_loop e reqs t now m attempt (r + 1) s
      = (.error (.storeError "transient store error"), s) := by
  simp [acquire_loop, attempt_acquisition, ht]

/-! ## Interleaved operations on the shared store -/

theorem apply_op_users_map_id (s : DBState) (op : PoolOp) :
    (apply_op s op).users.map (fun u => u.id) = s.users.map (fun u => u.id) := by
  cases op with
  | attemptOp e reqs now f =>
    show ((attempt_acquisition e reqs now f s).2).users.map _ = _
    rcases hres : attempt_acquisition e reqs now f s with ⟨r, s2⟩
    cases r with
    | ok us => exact attempt_go_ids reqs s [] us s2 (attempt_acquisition_ok hres)
    | error err =>
      have hs := attempt_acquisition_error_state hres
      subst hs
      rfl
  | releaseOp e now => exact release_users_map_id e now s

theorem apply_op_preserves_locked_row {a : String} {i : Nat} (s : DBState) (op : PoolOp)
    (hn : users_nodup s) (hop : not_release_of a op)
    (hw : ∃ w ∈ s.users, w.id = i ∧ w.is_locked = true ∧ w.locked_by = some a) :
    ∃ w ∈ (apply_op s op).users, w.id = i ∧ w.is_locked = true ∧ w.locked_by = some a := by
  obtain ⟨w, hws, hwid, hwl, hwby⟩ := hw
  cases op with
  | attemptOp e reqs now f =>
    show ∃ w ∈ ((attempt_acquisition e reqs now f s).2).users,
      w.id = i ∧ w.is_locked = true ∧ w.locked_by = some a
    rcases hres : attempt_acquisition e reqs now f s with ⟨r, s2⟩
    cases r with
    | ok us =>
      have hgo := attempt_acquisition_ok hres
      have havoid := attempt_go_avoid reqs s [] us s2 w hgo hn hws hwl
        (fun x hx => absurd hx (List.not_mem_nil x))
      exact ⟨w, havoid.1, hwid, hwl, hwby⟩
    | error err =>
      have hs := attempt_acquisition_error_state hres
      subst hs
      exact ⟨w, hws, hwid, hwl, hwby⟩
  | releaseOp e now =>
    have hne : e ≠ a := hop
    exact ⟨w, release_preserves_other hne hws hwby, hwid, hwl, hwby⟩

theorem foldl_preserves_locked_row {a : String} {i : Nat} :
    ∀ (ops : List PoolOp) (s : DBState),
      users_nodup s →
      (∀ op ∈ ops, not_release_of a op) →
      (∃ w ∈ s.users, w.id = i ∧ w.is_locked = true ∧ w.locked_by = some a) →
      users_nodup (ops.foldl apply_op s) ∧
      ∃ w ∈ (ops.foldl apply_op s).users,
        w.id = i ∧ w.is_locked = true ∧ w.locked_by = some a := by
  intro ops
  induction ops with
  | nil =>
    intro s hn _ hw
    exact ⟨hn, hw⟩
  | cons op rest ih =>
    intro s hn hops hw
    rw [List.foldl_cons]
    refine ih (apply_op s op) ?_ (fun o ho => hops o (List.mem_cons_of_mem op ho)) ?_
    · unfold users_nodup
      rw [apply_op_users_map_id]
      exact hn
    · exact apply_op_preserves_locked_row s op hn (hops op (List.mem_cons_self op rest)) hw

/-! ## Creating the execution record -/

theorem create_execution_fresh {e : String} {reqs : List (String × Nat)} {now : Nat}
    {s : DBState} (hfresh : ∀ ex ∈ s.executions, ex.id ≠ e) :
    create_execution e reqs now s = .ok (with_new_execution e reqs now s) := by
  have hno : ¬(s.executions.any (fun ex => ex.id == e) = true) := by
    rw [List.any_eq_true]
    rintro ⟨ex, hex, hbeq⟩
    exact hfresh ex hex (by rwa [beq_iff_eq] at hbeq)
  unfold create_execution
  rw [if_neg hno]

theorem create_execution_dup {e : String} {reqs : List (String × Nat)} {now : Nat}
    {s : DBState} {ex : TestExecution} (hex : ex ∈ s.executions) (hid : ex.id = e) :
    create_execution e reqs now s = .error (.integrityError
      ("duplicate key value violates unique constraint: " ++ e)) := by
  unfold create_execution
  rw [if_pos]
  rw [List.any_eq_true]
  exact ⟨ex, hex, beq_iff_eq.mpr hid⟩

theorem update_execution_mem {xs : List TestExecution} {e : String} {ex : TestExecution}
    (hex : ex ∈ xs) (hid : ex.id = e) (f : TestExecution → TestExecution) :
    f ex ∈ update_execution e f xs := by
  unfold update_execution
  rw [List.mem_map]
  exact ⟨ex, hex, by rw [if_pos (beq_iff_eq.mpr hid)]⟩

theorem new_execution_mem (e : String) (reqs : List (String × Nat)) (now : Nat)
    (s : DBState) :
    ({ id := e, requested_roles := reqs, status := .acquiring, created_at := some now,
       acquired_at := none, completed_at := none } : TestExecution)
      ∈ (with_new_execution e reqs now s).executions := by
  unfold with_new_execution
  exact List.mem_append_right _ (List.mem_singleton.mpr rfl)

theorem release_users_exec_mem {e : String} {now : Nat} {s : DBState} {ex : TestExecution}
    (hex : ex ∈ s.executions) (hid : ex.id = e) :
    ex.mark_completed now ∈ ((release_users e now s).2).executions := by
  have hany : ((release_by_test_execution e s).2).executions.any
      (fun ex => ex.id == e) = true := by
    rw [List.any_eq_true]
    exact ⟨ex, hex, beq_iff_eq.mpr hid⟩
  simp only [release_users, hany, if_pos rfl]
  exact update_execution_mem hex hid _

/-! ## Claims -/

/-- C9: for every attempt and every jitter sample in `[1/2, 3/2]`,
`_calculate_backoff` returns exactly `min(2 ^ attempt, max_retry_wait_seconds)
* jitter`, which therefore lies between `1/2` and `3/2` times
`min(2 ^ attempt, max_retry_wait_seconds)`. -/
theorem backoff_equals_and_bounded (S : Settings) (attempt : Nat) (jitter : ℚ)
    (hj1 : 1 / 2 ≤ jitter) (hj2 : jitter ≤ 3 / 2)
    (hw : 1 ≤ S.max_retry_wait_seconds) :
    calculate_backoff S attempt jitter
      = min ((2 : ℚ) ^ attempt) (S.max_retry_wait_seconds : ℚ) * jitter ∧
    1 / 2 * min ((2 : ℚ) ^ attempt) (S.max_retry_wait_seconds : ℚ)
      ≤ calculate_backoff S attempt jitter ∧
    calculate_backoff S attempt jitter
      ≤ 3 / 2 * min ((2 : ℚ) ^ attempt) (S.max_retry_wait_seconds : ℚ) := by
  have hwq : (1 : ℚ) ≤ (S.max_retry_wait_seconds : ℚ) := by exact_mod_cast hw
  have hbase : (0 : ℚ) ≤ min ((2 : ℚ) ^ attempt) (S.max_retry_wait_seconds : ℚ) :=
    le_min (pow_nonneg (by norm_num) _) (le_trans zero_le_one hwq)
  refine ⟨rfl, ?_, ?_⟩
  · calc 1 / 2 * min ((2 : ℚ) ^ attempt) (S.max_retry_wait_seconds : ℚ)
        = min ((2 : ℚ) ^ attempt) (S.max_retry_wait_seconds : ℚ) * (1 / 2) := mul_comm _ _
      _ ≤ min ((2 : ℚ) ^ attempt) (S.max_retry_wait_seconds : ℚ) * jitter :=
        mul_le_mul_of_nonneg_left hj1 hbase
      _ = calculate_backoff S attempt jitter := rfl
  · calc calculate_backoff S attempt jitter
        = min ((2 : ℚ) ^ attempt) (S.max_retry_wait_seconds : ℚ) * jitter := rfl
      _ ≤ min ((2 : ℚ) ^ attempt) (S.max_retry_wait_seconds : ℚ) * (3 / 2) :=
        mul_le_mul_of_nonneg_left hj2 hbase
      _ = 3 / 2 * min ((2 : ℚ) ^ attempt) (S.max_retry_wait_seconds : ℚ) := mul_comm _ _

/-- C9 witness: attempt 3 with jitter 1 under the default settings. -/
theorem backoff_equals_and_bounded_witness :
    calculate_backoff get_settings 3 1
      = min ((2 : ℚ) ^ 3) ((get_settings.max_retry_wait_seconds : Nat) : ℚ) * 1 ∧
    1 / 2 * min ((2 : ℚ) ^ 3) ((get_settings.max_retry_wait_seconds : Nat) : ℚ)
      ≤ calculate_backoff get_settings 3 1 ∧
    calculate_backoff get_settings 3 1
      ≤ 3 / 2 * min ((2 : ℚ) ^ 3) ((get_settings.max_retry_wait_seconds : Nat) : ℚ) :=
  backoff_equals_and_bounded get_settings 3 1 (by norm_num) (by norm_num) (by decide)

/-- C4: when a `TestExecution` with the requested id already exists,
`acquire_users` fails with the store's duplicate-key error and leaves the
state — in particular the existing execution's leases — completely
untouched; no lease attempt and no retry happens (the returned state is the
input state and the error is returned directly). -/
theorem duplicate_execution_fails_before_lease
    (S : Settings) (e : String) (reqs : List (String × Nat)) (mr : Option Nat)
    (t : Nat → Bool) (now : Nat) (s : DBState) (ex : TestExecution)
    (hex : ex ∈ s.executions) (hid : ex.id = e) :
    acquire_users S e reqs mr t now s
      = (.error (.integrityError
          ("duplicate key value violates unique constraint: " ++ e)), s) := by
  simp only [acquire_users, create_execution_dup hex hid]

/-- C4 witness: scenario S4, a second acquire against the id of a live
execution. -/
theorem duplicate_execution_fails_before_lease_witness :
    acquire_users get_settings "t3" [("client", 1)] (some 10) no_transient 9
        { users := [locked_sample_user 1 "client" "t3" 3],
          executions := [{ id := "t3", requested_roles := [("client", 1)],
                           status := .running, created_at := some 3,
                           acquired_at := some 3, completed_at := none }] }
      = (.error (.integrityError
          ("duplicate key value violates unique constraint: " ++ "t3")),
         { users := [locked_sample_user 1 "client" "t3" 3],
           executions := [{ id := "t3", requested_roles := [("client", 1)],
                            status := .running, created_at := some 3,
                            acquired_at := some 3, completed_at := none }] }) :=
  duplicate_execution_fails_before_lease get_settings "t3" [("client", 1)] (some 10)
    no_transient 9 _
    { id := "t3", requested_roles := [("client", 1)], status := .running,
      created_at := some 3, acquired_at := some 3, completed_at := none }
    (List.mem_singleton.mpr rfl) rfl

/-- C2: a failed acquisition attempt is all-or-nothing: whenever
`_attempt_acquisition` raises (shortage or transient store error), the
session rollback restores exactly the state from the start of the attempt,
so rows claimed for earlier roles of the attempt are released, and if no
entity was leased by the execution before the attempt then none is after
it. -/
theorem attempt_failure_rolls_back
    (e : String) (reqs : List (String × Nat)) (now : Nat) (f : Bool) (s : DBState)
    (err : PyError)
    (h : (attempt_acquisition e reqs now f s).1 = .error err) :
    (attempt_acquisition e reqs now f s).2 = s ∧
    ((∀ u ∈ s.users, u.locked_by ≠ some e) →
      ∀ u ∈ ((attempt_acquisition e reqs now f s).2).users, u.locked_by ≠ some e) := by
  rcases hres : attempt_acquisition e reqs now f s with ⟨r, s2⟩
  rw [hres] at h
  have hr : r = .error err := h
  subst hr
  have hs : s2 = s := attempt_acquisition_error_state hres
  subst hs
  exact ⟨rfl, fun hinv => hinv⟩

/-- C2 witness: a one-client pool cannot satisfy a two-client attempt; the
attempt fails and the post-attempt state is the pre-attempt state. -/
theorem attempt_failure_rolls_back_witness :
    (attempt_acquisition "w2" [("client", 2)] 4 false one_client_pool).2
        = one_client_pool ∧
    ((∀ u ∈ one_client_pool.users, u.locked_by ≠ some "w2") →
      ∀ u ∈ ((attempt_acquisition "w2" [("client", 2)] 4 false one_client_pool).2).users,
        u.locked_by ≠ some "w2") :=
  attempt_failure_rolls_back "w2" [("client", 2)] 4 false one_client_pool
    (.insufficientUsers
      { message := "Insufficient client users", role := some "client",
        required := some 2, available := some 1 })
    rfl

/-- C5 counterexample: in scenario S3 (one client, two required, three
retries) the raised timeout carries the shortage details only inside its
message string; its `role`, `required` and `available` attributes are all
absent (`None`), unlike `InsufficientUsersException`, whose constructor is
the only one that fills them. -/
theorem acquisition_timeout_unstructured_counterexample :
    (acquire_users get_settings "t2" [("client", 2)] (some 3) no_transient 7
        one_client_pool).1
      = .error (.acquisitionTimeout
          { message := "Could not acquire users after 3 attempts: Insufficient client users",
            role := none, required := none, available := none }) := rfl

/-- C5 amended: if every attempt of `acquire_users` ends in shortage, the
execution is transitioned to FAILED with `completed_at` set and the call
fails with `UserAcquisitionTimeoutException`; the exception embeds the
retry count and the last shortage's message in its message string, but
carries no structured `role` / `required` / `available` fields (they are
`None`). -/
theorem exhausted_retries_marks_failed
    (S : Settings) (e : String) (reqs : List (String × Nat)) (m : Nat)
    (t : Nat → Bool) (now : Nat) (s : DBState) (d : ExcData) (s' : DBState)
    (h : acquire_users S e reqs (some m) t now s = (.error (.acquisitionTimeout d), s'))
    (hm : 0 < m)
    (hfresh : ∀ ex ∈ s.executions, ex.id ≠ e) :
    d.role = none ∧ d.required = none ∧ d.available = none ∧
    (∃ rest, d.message
      = "Could not acquire users after " ++ toString m ++ " attempts: " ++ rest) ∧
    ∃ ex ∈ s'.executions, ex.id = e ∧ ex.status = .failed ∧ ex.completed_at = some now := by
  simp only [acquire_users, create_execution_fresh hfresh, Option.getD_some] at h
  have hlt := acquire_loop_timeout m 0 (with_new_execution e reqs now s) d s' h hm
  obtain ⟨h1, h2, h3, h4, h5⟩ := hlt
  refine ⟨h1, h2, h3, h4, ?_⟩
  rw [h5]
  exact ⟨TestExecution.mark_failed
      { id := e, requested_roles := reqs, status := .acquiring, created_at := some now,
        acquired_at := none, completed_at := none } now,
    update_execution_mem (new_execution_mem e reqs now s) rfl _, rfl, rfl, rfl⟩

/-- C5 amended witness: scenario S3 concretely. -/
theorem exhausted_retries_marks_failed_witness :
    c5_data.role = none ∧ c5_data.required = none ∧ c5_data.available = none ∧
    (∃ rest, c5_data.message
      = "Could not acquire users after " ++ toString 3 ++ " attempts: " ++ rest) ∧
    ∃ ex ∈ c5_failed_state.executions,
      ex.id = "t2" ∧ ex.status = .failed ∧ ex.completed_at = some 7 :=
  exhausted_retries_marks_failed get_settings "t2" [("client", 2)] 3 no_transient 7
    one_client_pool c5_data c5_failed_state rfl (by decide) (by decide)

/-- C6 counterexample: with plenty of capacity, a transient store error on
attempt 0 and `max_retries = 3`, the claim predicts a successful
acquisition on a later attempt; instead the store error escapes
`acquire_users` immediately (the call does not return `ok`). -/
theorem transient_error_escapes_counterexample :
    (acquire_users get_settings "e6" [("client", 1)] (some 3) (fun k => k == 0) 5
        sample_pool).1
      = .error (.storeError "transient store error") := rfl

/-- C6 amended: a transient store error raised during an attempt is not
treated as a shortage: the attempt's transaction is rolled back and the
error propagates out of `acquire_users` at once — no backoff, no further
attempt, no FAILED transition; the execution record is left in ACQUIRING
exactly as the create step left it. -/
theorem transient_error_propagates
    (S : Settings) (e : String) (reqs : List (String × Nat)) (m : Nat)
    (t : Nat → Bool) (now : Nat) (s : DBState)
    (hm : 0 < m) (ht : t 0 = true)
    (hfresh : ∀ ex ∈ s.executions, ex.id ≠ e) :
    acquire_users S e reqs (some m) t now s
      = (.error (.storeError "transient store error"), with_new_execution e reqs now s) ∧
    ∃ ex ∈ (with_new_execution e reqs now s).executions,
      ex.id = e ∧ ex.status = .acquiring := by
  obtain ⟨r, hr⟩ : ∃ r, m = r + 1 := ⟨m - 1, by omega⟩
  constructor
  · simp only [acquire_users, create_execution_fresh hfresh, Option.getD_some]
    rw [hr]
    exact acquire_loop_store_error ht
  · exact ⟨_, new_execution_mem e reqs now s, rfl, rfl⟩

/-- C6 amended witness: the counterexample's input, instantiated through
the general statement. -/
theorem transient_error_propagates_witness :
    acquire_users get_settings "e6" [("client", 1)] (some 3) (fun k => k == 0) 5
        sample_pool
      = (.error (.storeError "transient store error"),
         with_new_execution "e6" [("client", 1)] 5 sample_pool) ∧
    ∃ ex ∈ (with_new_execution "e6" [("client", 1)] 5 sample_pool).executions,
      ex.id = "e6" ∧ ex.status = .acquiring :=
  transient_error_propagates get_settings "e6" [("client", 1)] 3 (fun k => k == 0) 5
    sample_pool (by decide) rfl (by decide)

/-- C8 counterexample: scenario S3's exhausted acquisition leaves execution
t8 FAILED, and a subsequent `release_users` — far from leaving a FAILED
execution untouched — transitions it to COMPLETED. -/
theorem release_completes_failed_counterexample :
    (get_by_id ((acquire_users get_settings "t8" [("client", 2)] (some 1) no_transient 7
          one_client_pool).2) "t8").map (fun ex => ex.status)
        = some TestExecutionStatus.failed ∧
    (get_by_id ((release_users "t8" 9
          ((acquire_users get_settings "t8" [("client", 2)] (some 1) no_transient 7
            one_client_pool).2)).2) "t8").map (fun ex => ex.status)
        = some TestExecutionStatus.completed := ⟨rfl, rfl⟩

/-- C8 amended: `release_users` marks the execution COMPLETED (refreshing
`completed_at`) whenever the record exists, regardless of its current
status — including FAILED and already-COMPLETED executions; FAILED is not
terminal.  The acquire-side edges ACQUIRING→RUNNING and ACQUIRING→FAILED
are as specified. -/
theorem release_marks_any_execution_completed
    (e : String) (now : Nat) (s : DBState) (ex : TestExecution)
    (hex : ex ∈ s.executions) (hid : ex.id = e) :
    ∃ ex' ∈ ((release_users e now s).2).executions,
      ex'.id = e ∧ ex'.status = .completed ∧ ex'.completed_at = some now :=
  ⟨ex.mark_completed now, release_users_exec_mem hex hid, hid, rfl, rfl⟩

/-- C8 amended witness: releasing a FAILED execution marks it COMPLETED. -/
theorem release_marks_any_execution_completed_witness :
    ∃ ex' ∈ ((release_users "t8" 9
        { users := [sample_user 1 "client"],
          executions := [{ id := "t8", requested_roles := [("client", 2)],
                           status := .failed, created_at := some 7,
                           acquired_at := none, completed_at := some 7 }] }).2).executions,
      ex'.id = "t8" ∧ ex'.status = .completed ∧ ex'.completed_at = some 9 :=
  release_marks_any_execution_completed "t8" 9 _
    { id := "t8", requested_roles := [("client", 2)], status := .failed,
      created_at := some 7, acquired_at := none, completed_at := some 7 }
    (List.mem_singleton.mpr rfl) rfl

/-- C1: whenever `acquire_users` returns successfully, the returned list,
grouped by role, contains exactly the count requested for each role; every
returned entity snapshot is locked with `locked_by` the execution id; and
after the commit the store rows with the returned ids are leased by the
execution. -/
theorem acquire_returns_exact_counts_and_leased
    (S : Settings) (e : String) (reqs : List (String × Nat)) (mr : Option Nat)
    (t : Nat → Bool) (now : Nat) (s : DBState) (us : List CertaUser) (s' : DBState)
    (h : acquire_users S e reqs mr t now s = (.ok us, s'))
    (hn : users_nodup s)
    (hkeys : (reqs.map Prod.fst).Nodup)
    (hfresh : ∀ ex ∈ s.executions, ex.id ≠ e) :
    (∀ r c, (r, c) ∈ reqs → (us.filter (fun u => u.role == r)).length = c) ∧
    (∀ u ∈ us, u.is_locked = true ∧ u.locked_by = some e) ∧
    (∀ u ∈ us, ∃ w ∈ s'.users, w.id = u.id ∧ w.is_locked = true ∧ w.locked_by = some e) := by
  simp only [acquire_users, create_execution_fresh hfresh] at h
  obtain ⟨s2, hgo, hs'⟩ := acquire_loop_ok _ _ _ us s' h
  have hn1 : users_nodup (with_new_execution e reqs now s) := hn
  have hres := attempt_go_results reqs _ [] us s2 hgo hn1
    (fun a ha => absurd ha (List.not_mem_nil a))
    (fun a ha => absurd ha (List.not_mem_nil a))
  refine ⟨?_, hres.1, ?_⟩
  · intro r c hrc
    have hf := attempt_go_filter_mem reqs _ [] us s2 hgo hn1 hkeys r c hrc
    simpa using hf
  · intro u hu
    obtain ⟨w, hw, hrest⟩ := hres.2 u hu
    refine ⟨w, ?_, hrest⟩
    rw [hs']
    exact hw

/-- C1 witness: acquiring one client from the one-client pool. -/
theorem acquire_returns_exact_counts_and_leased_witness :
    (∀ r c, (r, c) ∈ [("client", 1)] →
      ([w1_user].filter (fun u => u.role == r)).length = c) ∧
    (∀ u ∈ [w1_user], u.is_locked = true ∧ u.locked_by = some "w1") ∧
    (∀ u ∈ [w1_user], ∃ w ∈ w1_state.users,
      w.id = u.id ∧ w.is_locked = true ∧ w.locked_by = some "w1") :=
  acquire_returns_exact_counts_and_leased get_settings "w1" [("client", 1)] (some 1)
    no_transient 3 one_client_pool [w1_user] w1_state rfl
    (by unfold users_nodup; decide) (by decide) (by decide)

/-- Helper for C10: a requirements map whose counts are all zero makes every
per-role claim trivially succeed with no users and no state change. -/
theorem attempt_go_zero {e : String} {now : Nat} :
    ∀ (reqs : List (String × Nat)) (s : DBState) (acc : List CertaUser),
      (∀ rc ∈ reqs, rc.2 = 0) →
      attempt_go e now reqs s acc = .ok (acc, s) := by
  intro reqs
  induction reqs with
  | nil =>
    intro s acc _
    rfl
  | cons rc rest ih =>
    intro s acc hz
    obtain ⟨role, count⟩ := rc
    have hc0 : count = 0 := hz (role, count) (List.mem_cons_self _ _)
    subst hc0
    have hatomic : acquire_users_atomic role 0 e now s = ([], s) := by
      simp [acquire_users_atomic, claim_candidates]
    simp only [attempt_go, hatomic]
    rw [if_neg (Nat.not_lt_zero _), List.append_nil]
    exact ih s acc (fun rc hrc => hz rc (List.mem_cons_of_mem _ hrc))

/-- C10: requirements with zero counts (or an empty map) pass request
validation — `CertaUserAcquisitionRequest` constrains only the id length
and `max_retries`, never the counts — and `acquire_users` succeeds on the
first attempt with an empty result: zero returned users is not fewer than
zero required, so no shortage fires, the entity table is untouched and the
execution is marked RUNNING. -/
theorem zero_count_requirements_accepted
    (S : Settings) (e : String) (reqs : List (String × Nat)) (m : Nat)
    (t : Nat → Bool) (now : Nat) (s : DBState)
    (hz : ∀ rc ∈ reqs, rc.2 = 0)
    (hm : 0 < m) (ht : t 0 = false)
    (hfresh : ∀ ex ∈ s.executions, ex.id ≠ e) :
    (∀ reqs', acquisition_request_valid e reqs m = acquisition_request_valid e reqs' m) ∧
    ∃ s', acquire_users S e reqs (some m) t now s = (.ok [], s') ∧
      s'.users = s.users ∧
      ∃ ex ∈ s'.executions, ex.id = e ∧ ex.status = .running ∧ ex.acquired_at = some now := by
  refine ⟨fun reqs' => rfl, ?_⟩
  obtain ⟨r, hr⟩ : ∃ r, m = r + 1 := ⟨m - 1, by omega⟩
  have hatt : attempt_acquisition e reqs now (t 0)
      (with_new_execution e reqs now s) = (.ok [], with_new_execution e reqs now s) := by
    unfold attempt_acquisition
    rw [ht, if_neg Bool.false_ne_true, attempt_go_zero reqs _ [] hz]
  refine ⟨{ with_new_execution e reqs now s with
              executions := update_execution e (fun ex => ex.mark_running now)
                              (with_new_execution e reqs now s).executions },
          ?_, rfl, ?_⟩
  · simp only [acquire_users, create_execution_fresh hfresh, Option.getD_some, hr]
    simp only [acquire_loop, hatt]
  · exact ⟨TestExecution.mark_running
        { id := e, requested_roles := reqs, status := .acquiring, created_at := some now,
          acquired_at := none, completed_at := none } now,
      update_execution_mem (new_execution_mem e reqs now s) rfl _, rfl, rfl, rfl⟩

/-- C10 witness: a single zero-count role against the sample pool. -/
theorem zero_count_requirements_accepted_witness :
    (∀ reqs', acquisition_request_valid "t9" [("client", 0)] 1
        = acquisition_request_valid "t9" reqs' 1) ∧
    ∃ s', acquire_users get_settings "t9" [("client", 0)] (some 1) no_transient 5
        sample_pool = (.ok [], s') ∧
      s'.users = sample_pool.users ∧
      ∃ ex ∈ s'.executions, ex.id = "t9" ∧ ex.status = .running ∧ ex.acquired_at = some 5 :=
  zero_count_requirements_accepted get_settings "t9" [("client", 0)] 1 no_transient 5
    sample_pool (by decide) (by decide) rfl (by decide)

/-- Rows none of which are leased by `e` are left untouched by a release. -/
theorem release_map_congr_id {e : String} {l : List CertaUser}
    (h : ∀ u ∈ l, (u.locked_by == some e) = false) :
    l.map (fun u => if u.locked_by == some e then unlock_user u else u) = l := by
  have hid : ∀ u ∈ l, (if u.locked_by == some e then unlock_user u else u) = u := by
    intro u hu
    rw [if_neg]
    rw [h u hu]
    exact Bool.false_ne_true
  rw [List.map_congr_left hid, List.map_id']

/-- C7 counterexample: the second immediate `release_users` does return 0,
but it is not free of state change — it re-marks the execution COMPLETED
and overwrites `completed_at` from 5 to 9. -/
theorem second_release_modifies_execution_counterexample :
    (release_users "t7" 9 c7_after_release).1 = 0 ∧
    (get_by_id c7_after_release "t7").map (fun ex => ex.completed_at) = some (some 5) ∧
    (get_by_id ((release_users "t7" 9 c7_after_release).2) "t7").map
        (fun ex => ex.completed_at) = some (some 9) := ⟨rfl, rfl, rfl⟩

/-- C7 amended: `release_users` after a successful `acquire_users` returns
`sum(req.values)`; a second immediate release returns 0 and leaves every
entity row unchanged, but it does modify the execution record again: the
execution is re-marked COMPLETED with `completed_at` set to the second
release's time. -/
theorem release_after_acquire_counts
    (S : Settings) (e : String) (reqs : List (String × Nat)) (mr : Option Nat)
    (t : Nat → Bool) (now t1 t2 : Nat) (s : DBState) (us : List CertaUser) (s' : DBState)
    (h : acquire_users S e reqs mr t now s = (.ok us, s'))
    (hn : users_nodup s)
    (hstale : ∀ u ∈ s.users, u.locked_by ≠ some e)
    (hfresh : ∀ ex ∈ s.executions, ex.id ≠ e) :
    (release_users e t1 s').1 = sum_counts reqs ∧
    (release_users e t2 ((release_users e t1 s').2)).1 = 0 ∧
    ((release_users e t2 ((release_users e t1 s').2)).2).users
      = ((release_users e t1 s').2).users ∧
    ∃ ex ∈ ((release_users e t2 ((release_users e t1 s').2)).2).executions,
      ex.id = e ∧ ex.status = .completed ∧ ex.completed_at = some t2 := by
  simp only [acquire_users, create_execution_fresh hfresh] at h
  obtain ⟨s2, hgo, hs'⟩ := acquire_loop_ok _ _ _ us s' h
  have hn1 : users_nodup (with_new_execution e reqs now s) := hn
  have hinv : ∀ u ∈ (with_new_execution e reqs now s).users,
      u.is_locked = false → u.locked_by ≠ some e :=
    fun u hu _ => hstale u hu
  have hcount := attempt_go_countP reqs _ [] us s2 hgo hn1 hinv
  have hzero : (with_new_execution e reqs now s).users.countP
      (fun u => u.locked_by == some e) = 0 := by
    rw [List.countP_eq_zero]
    intro u hu hbeq
    exact hstale u hu (by rwa [beq_iff_eq] at hbeq)
  have hlen := attempt_go_length reqs _ [] us s2 hgo hn1
  have husers' : s'.users = s2.users := by rw [hs']
  have h2 : s2.users.countP (fun u => u.locked_by == some e) = sum_counts reqs := by
    simp only [List.length_nil] at hcount hlen
    omega
  have hzero2 : ((release_users e t1 s').2).users.countP
      (fun u => u.locked_by == some e) = 0 := by
    rw [release_users_users_eq]
    exact countP_release_zero e s'.users
  refine ⟨?_, ?_, ?_, ?_⟩
  · rw [release_users_count_eq, husers', h2]
  · rw [release_users_count_eq, hzero2]
  · rw [release_users_users_eq]
    apply release_map_congr_id
    intro u hu
    have hnp := List.countP_eq_zero.mp hzero2 u hu
    cases hx : (u.locked_by == some e) with
    | false => rfl
    | true => exact absurd hx hnp
  · have hnew1 : ({ id := e, requested_roles := reqs, status := .acquiring,
                    created_at := some now, acquired_at := none,
                    completed_at := none } : TestExecution) ∈ s2.executions := by
      rw [attempt_go_executions reqs _ [] us s2 hgo]
      exact new_execution_mem e reqs now s
    have hex1 : TestExecution.mark_running
        { id := e, requested_roles := reqs, status := .acquiring, created_at := some now,
          acquired_at := none, completed_at := none } now ∈ s'.executions := by
      rw [hs']
      exact update_execution_mem hnew1 rfl _
    exact ⟨_, release_users_exec_mem (release_users_exec_mem hex1 rfl) rfl, rfl, rfl, rfl⟩

/-- C7 amended witness: the one-client scenario, releases at times 5 and 9. -/
theorem release_after_acquire_counts_witness :
    (release_users "t7" 5 c7_state).1 = sum_counts [("client", 1)] ∧
    (release_users "t7" 9 ((release_users "t7" 5 c7_state).2)).1 = 0 ∧
    ((release_users "t7" 9 ((release_users "t7" 5 c7_state).2)).2).users
      = ((release_users "t7" 5 c7_state).2).users ∧
    ∃ ex ∈ ((release_users "t7" 9 ((release_users "t7" 5 c7_state).2)).2).executions,
      ex.id = "t7" ∧ ex.status = .completed ∧ ex.completed_at = some 9 :=
  release_after_acquire_counts get_settings "t7" [("client", 1)] (some 1) no_transient
    3 5 9 one_client_pool [locked_sample_user 1 "client" "t7" 3] c7_state rfl
    (by unfold users_nodup; decide) (by decide) (by decide)

/-- C3: no entity id is returned by two overlapping successful
acquisitions.  Acquisition A commits from state `s1`; while A's leases are
still held, any interleaving of further attempts and releases other than a
release of A runs (the SKIP-LOCKED grant primitive makes each such step
atomic); then acquisition B commits.  The two result sets share no id. -/
theorem overlapping_acquires_disjoint
    (SA SB : Settings) (a b : String) (reqsA reqsB : List (String × Nat))
    (mrA mrB : Option Nat) (tA tB : Nat → Bool) (nowA nowB : Nat)
    (s1 s2 s3 s4 : DBState) (usA usB : List CertaUser) (ops : List PoolOp)
    (hA : acquire_users SA a reqsA mrA tA nowA s1 = (.ok usA, s2))
    (hn : users_nodup s1)
    (hfreshA : ∀ ex ∈ s1.executions, ex.id ≠ a)
    (hops : ∀ op ∈ ops, not_release_of a op)
    (h3 : s3 = ops.foldl apply_op s2)
    (hB : acquire_users SB b reqsB mrB tB nowB s3 = (.ok usB, s4))
    (hfreshB : ∀ ex ∈ s3.executions, ex.id ≠ b) :
    ∀ u ∈ usA, ∀ v ∈ usB, v.id ≠ u.id := by
  simp only [acquire_users, create_execution_fresh hfreshA] at hA
  obtain ⟨sA2, hgoA, hsA⟩ := acquire_loop_ok _ _ _ usA s2 hA
  have hnA : users_nodup (with_new_execution a reqsA nowA s1) := hn
  have hresA := (attempt_go_results reqsA _ [] usA sA2 hgoA hnA
    (fun x hx => absurd hx (List.not_mem_nil x))
    (fun x hx => absurd hx (List.not_mem_nil x))).2
  have hs2users : s2.users = sA2.users := by rw [hsA]
  have hn2 : users_nodup s2 := by
    unfold users_nodup
    rw [hs2users]
    exact attempt_go_nodup hgoA hnA
  simp only [acquire_users, create_execution_fresh hfreshB] at hB
  obtain ⟨sB2, hgoB, hsB⟩ := acquire_loop_ok _ _ _ usB s4 hB
  intro u hu v hv
  obtain ⟨w, hw2, hwid, hwl, hwby⟩ := hresA u hu
  have hw2' : w ∈ s2.users := by
    rw [hs2users]
    exact hw2
  have hfold := foldl_preserves_locked_row ops s2 hn2 hops ⟨w, hw2', hwid, hwl, hwby⟩
  rw [← h3] at hfold
  obtain ⟨hn3, w', hw3, hw'id, hw'l, hw'by⟩ := hfold
  have hnB : users_nodup (with_new_execution b reqsB nowB s3) := hn3
  have havoid := attempt_go_avoid reqsB _ [] usB sB2 w' hgoB hnB hw3 hw'l
    (fun x hx => absurd hx (List.not_mem_nil x))
  have hvw := havoid.2 v hv
  rw [← hw'id]
  exact hvw

/-- C3 witness: overlapping acquisitions wA (two clients) and wB (one
client) on the sample pool lease disjoint entities — wB's user differs
from each of wA's two users. -/
theorem overlapping_acquires_disjoint_witness :
    (locked_sample_user 3 "client" "wB" 4).id ≠ (locked_sample_user 1 "client" "wA" 3).id ∧
    (locked_sample_user 3 "client" "wB" 4).id ≠ (locked_sample_user 2 "client" "wA" 3).id :=
  ⟨overlapping_acquires_disjoint get_settings get_settings "wA" "wB"
    [("client", 2)] [("client", 1)] (some 1) (some 1) no_transient no_transient 3 4
    sample_pool c3_s2 c3_s2 c3_s4 c3_usA c3_usB []
    rfl (by unfold users_nodup; decide) (by decide)
    (fun op hop => absurd hop (List.not_mem_nil op)) rfl rfl (by decide)
    (locked_sample_user 1 "client" "wA" 3) (by decide)
    (locked_sample_user 3 "client" "wB" 4) (by decide),
   overlapping_acquires_disjoint get_settings get_settings "wA" "wB"
    [("client", 2)] [("client", 1)] (some 1) (some 1) no_transient no_transient 3 4
    sample_pool c3_s2 c3_s2 c3_s4 c3_usA c3_usB []
    rfl (by unfold users_nodup; decide) (by decide)
    (fun op hop => absurd hop (List.not_mem_nil op)) rfl rfl (by decide)
    (locked_sample_user 2 "client" "wA" 3) (by decide)
    (locked_sample_user 3 "client" "wB" 4) (by decide)⟩

end UserPool
